import Mathlib

/-!
Shallow embedding of `src/main.py` (class `ClickUpExporter`) of the
CV-Autosave_Excel repository, together with theorems settling the frozen
claims about its specification.

Python values flowing through the exporter are JSON-like: `None`, booleans,
numbers, strings, lists and string-keyed dictionaries.  They are modelled by
the inductive type `JVal`.  Fallible Python operations (attribute access on
a non-dict, iteration of a non-iterable, true division of a non-number,
`str.join` over non-strings) are modelled in the `Except PyErr` monad, so
that a raised exception is an explicit `.error` result.

Modelling boundaries, stated once here:
* floats are modelled as exact rationals; `pyFloatStr` renders integral
  floats exactly as CPython does (`N.0`) and non-integral ones with a
  `num/den` placeholder never relied upon by a theorem;
* Python's shortest-round-trip float printing and string `repr` escaping
  are simplified in `pyRepr` (containers are rendered structurally);
* generator expressions consumed by `", ".join(...)` are evaluated eagerly,
  so when both an element error and a join type error are present the model
  may report a different exception *kind* than CPython, but it raises
  exactly when CPython raises.
-/

/-- Exception kinds that the exporter's core can raise. -/
inductive PyErr where
  | typeError
  | attributeError
deriving DecidableEq

/-- JSON-like Python values: `None`, `bool`, `int`, `float` (exact rational),
`str`, `list`, and string-keyed `dict` (association list, insertion order). -/
inductive JVal where
  | none
  | bool (b : Bool)
  | int (n : Int)
  | float (q : ℚ)
  | str (s : String)
  | list (xs : List JVal)
  | dict (es : List (String × JVal))

/-- Numeric view used by Python `==` and arithmetic: bools and ints embed
into the rationals, other values are not numbers. -/
def asRat : JVal → Option ℚ
  | JVal.bool b => some (if b then 1 else 0)
  | JVal.int n => some (n : ℚ)
  | JVal.float q => some q
  | _ => Option.none

mutual
/-- Python `==` on JSON-like values: numeric kinds compare by value
(`True == 1 == 1.0`), strings by content, lists elementwise, dicts
entrywise (entrywise ordering is a simplification: the exporter never
compares two dicts with `==`). -/
def pyEq : JVal → JVal → Bool
  | JVal.none, JVal.none => true
  | JVal.str s, JVal.str t => s == t
  | JVal.list xs, JVal.list ys => pyEqList xs ys
  | JVal.dict es, JVal.dict fs => pyEqDict es fs
  | a, b =>
      match asRat a, asRat b with
      | some x, some y => x == y
      | _, _ => false

/-- Elementwise `pyEq` on lists. -/
def pyEqList : List JVal → List JVal → Bool
  | [], [] => true
  | x :: xs, y :: ys => pyEq x y && pyEqList xs ys
  | _, _ => false

/-- Entrywise `pyEq` on dict entries. -/
def pyEqDict : List (String × JVal) → List (String × JVal) → Bool
  | [], [] => true
  | (k, v) :: es, (l, w) :: fs => k == l && pyEq v w && pyEqDict es fs
  | _, _ => false
end

/-- Python truthiness of a JSON-like value. -/
def pyTruthy : JVal → Bool
  | JVal.none => false
  | JVal.bool b => b
  | JVal.int n => n != 0
  | JVal.float q => q != 0
  | JVal.str s => s != ""
  | JVal.list xs => !xs.isEmpty
  | JVal.dict es => !es.isEmpty

/-- Identity test `x is None`. -/
def isNone : JVal → Bool
  | JVal.none => true
  | _ => false

/-- First binding of key `k` in an association list, with default. -/
def dictGetD (es : List (String × JVal)) (k : String) (d : JVal) : JVal :=
  (es.lookup k).getD d

/-- Python `v.get(k, d)`: dictionary lookup with default; `AttributeError`
when `v` is not a dict. -/
def pyGet : JVal → String → JVal → Except PyErr JVal
  | JVal.dict es, k, d => Except.ok (dictGetD es k d)
  | _, _, _ => Except.error PyErr.attributeError

/-- Python iteration `for x in v`: lists yield their elements, strings their
characters (as one-character strings), dicts their keys; other values raise
`TypeError`. -/
def pyIter : JVal → Except PyErr (List JVal)
  | JVal.list xs => Except.ok xs
  | JVal.str s => Except.ok (s.data.map (fun c => JVal.str (String.singleton c)))
  | JVal.dict es => Except.ok (es.map (fun p => JVal.str p.1))
  | _ => Except.error PyErr.typeError

/-- Python `str` of a float, on the exact-rational model.  Faithful for
integral values, which CPython prints as `N.0`; non-integral floats involve
binary rounding and shortest-round-trip printing, which are outside this
model and rendered with a `num/den` placeholder no theorem relies on. -/
def pyFloatStr (q : ℚ) : String :=
  if q.den == 1 then toString q.num ++ ".0"
  else toString q.num ++ "/" ++ toString q.den

mutual
/-- Python `repr` of a JSON-like value (string escaping simplified). -/
def pyRepr : JVal → String
  | JVal.none => "None"
  | JVal.bool true => "True"
  | JVal.bool false => "False"
  | JVal.int n => toString n
  | JVal.float q => pyFloatStr q
  | JVal.str s => "\x27" ++ s ++ "\x27"
  | JVal.list xs => "[" ++ String.intercalate ", " (pyReprList xs) ++ "]"
  | JVal.dict es => "\x7b" ++ String.intercalate ", " (pyReprDict es) ++ "\x7d"

/-- `repr` of each element of a list. -/
def pyReprList : List JVal → List String
  | [] => []
  | v :: vs => pyRepr v :: pyReprList vs

/-- `repr` of each `key: value` entry of a dict. -/
def pyReprDict : List (String × JVal) → List String
  | [] => []
  | (k, v) :: es => ("\x27" ++ k ++ "\x27: " ++ pyRepr v) :: pyReprDict es
end

/-- Python `str` of a JSON-like value: identity on strings, `repr`-like on
everything else. -/
def pyStr : JVal → String
  | JVal.str s => s
  | v => pyRepr v

/-- String payload of a `JVal.str`, empty string otherwise. -/
def strOf : JVal → String
  | JVal.str s => s
  | _ => ""

/-- Whether a value is a Python string. -/
def isStr : JVal → Bool
  | JVal.str _ => true
  | _ => false

/-- Whether a value is a Python dict. -/
def isDict : JVal → Bool
  | JVal.dict _ => true
  | _ => false

/-- Python `sep.join(parts)`: succeeds exactly when every part is a string,
raising `TypeError` otherwise. -/
def pyJoin (sep : String) (parts : List JVal) : Except PyErr String :=
  if parts.all isStr then Except.ok (String.intercalate sep (parts.map strOf))
  else Except.error PyErr.typeError

/-- Python membership test `field_type in [s1, ..., sn]` (elementwise `==`). -/
def isType (t : JVal) (ss : List String) : Bool :=
  ss.any (fun s => pyEq t (JVal.str s))

/-- Python true division `field_value / 1000`: defined on numbers (bools
included), `TypeError` otherwise.  The quotient is the exact rational. -/
def pyTrueDiv1000 : JVal → Except PyErr ℚ
  | JVal.bool b => Except.ok (Rat.divInt (if b then 1 else 0) 1000)
  | JVal.int n => Except.ok (Rat.divInt n 1000)
  | JVal.float q => Except.ok (q / 1000)
  | _ => Except.error PyErr.typeError

/-- The `for option in options: if option.get("id") == field_value: return
option.get("name", "")` loop of the `dropdown` branch; after the loop the
raw identifier is returned unchanged. -/
def dropdownLookup (fv : JVal) : List JVal → Except PyErr JVal
  | [] => Except.ok fv
  | o :: rest => do
      let oid ← pyGet o "id" JVal.none
      if pyEq oid fv then pyGet o "name" (JVal.str "")
      else dropdownLookup fv rest

/-- The inner `for option in options: if option.get("id") == item:
names.append(option.get("name", ""))` loop of the `labels`/`multi_select`
branch: every matching option contributes its name (the loop has no break). -/
def idMatches (item : JVal) : List JVal → Except PyErr (List JVal)
  | [] => Except.ok []
  | o :: rest => do
      let oid ← pyGet o "id" JVal.none
      if pyEq oid item then do
        let nm ← pyGet o "name" (JVal.str "")
        let tail ← idMatches item rest
        pure (nm :: tail)
      else
        idMatches item rest

/-- The outer item loop of the `labels`/`multi_select` branch: a dict item
carrying `"name"` contributes it directly, any other item is searched in
`options` by id. -/
def labelsNames (options : List JVal) : List JVal → Except PyErr (List JVal)
  | [] => Except.ok []
  | item :: rest =>
      match item with
      | JVal.dict ies =>
          match ies.lookup "name" with
          | some nv => do
              let tail ← labelsNames options rest
              pure (nv :: tail)
          | Option.none => do
              let here ← idMatches item options
              let tail ← labelsNames options rest
              pure (here ++ tail)
      | _ => do
          let here ← idMatches item options
          let tail ← labelsNames options rest
          pure (here ++ tail)

/-- The generator `linked_task.get("name", "") for linked_task in
field_value if linked_task` of the `relationship` branch: falsy entries are
skipped, truthy entries must support `.get` (dicts), otherwise
`AttributeError`. -/
def relParts : List JVal → Except PyErr (List JVal)
  | [] => Except.ok []
  | t :: rest =>
      if pyTruthy t then do
        let nm ← pyGet t "name" (JVal.str "")
        let tail ← relParts rest
        pure (nm :: tail)
      else
        relParts rest

/-- The generator `user.get("username", "") for user in field_value if
isinstance(user, dict)` of the `users` branch (total: non-dicts are
filtered out before access). -/
def usersParts (users : List JVal) : List JVal :=
  users.filterMap (fun u =>
    match u with
    | JVal.dict ues => some (dictGetD ues "username" (JVal.str ""))
    | _ => Option.none)

/-- Embedding of `ClickUpExporter._get_field_value` (src/main.py lines
50-135), translated branch by branch.  Returns the raw Python value the
method returns (normally a string, but the `.get(...)` returns on lines 82,
86, 116, 126, 131 can surface non-string payloads), or the exception it
raises. -/
def _get_field_value (field : JVal) : Except PyErr JVal := do
  let _field_name ← pyGet field "name" JVal.none
  let field_type ← pyGet field "type" JVal.none
  let field_value ← pyGet field "value" JVal.none
  if isNone field_value then
    return JVal.str ""
  else if isType field_type ["text", "short_text", "email", "phone", "url"] then
    return JVal.str (pyStr field_value)
  else if isType field_type ["number", "rating", "auto_increment"] then
    return JVal.str (pyStr field_value)
  else if pyEq field_type (JVal.str "checkbox") then
    return JVal.str (if pyTruthy field_value then "Yes" else "No")
  else if pyEq field_type (JVal.str "dropdown") then
    match field_value with
    | JVal.str _ => do
        let tc ← pyGet field "type_config" (JVal.dict [])
        let optv ← pyGet tc "options" (JVal.list [])
        let options ← pyIter optv
        dropdownLookup field_value options
    | JVal.dict ds => return dictGetD ds "name" (JVal.str "")
    | _ => return JVal.str (pyStr field_value)
  else if pyEq field_type (JVal.str "labels") || pyEq field_type (JVal.str "multi_select") then
    match field_value with
    | JVal.list items => do
        let tc ← pyGet field "type_config" (JVal.dict [])
        let optv ← pyGet tc "options" (JVal.list [])
        let options ← pyIter optv
        let names ← labelsNames options items
        let s ← pyJoin ", " names
        return JVal.str s
    | _ => return JVal.str ""
  else if pyEq field_type (JVal.str "date") || pyEq field_type (JVal.str "time") then do
    let q ← pyTrueDiv1000 field_value
    return JVal.str (pyFloatStr q)
  else if pyEq field_type (JVal.str "users") then
    match field_value with
    | JVal.list users => do
        let s ← pyJoin ", " (usersParts users)
        return JVal.str s
    | _ => return JVal.str ""
  else if pyEq field_type (JVal.str "location") then
    match field_value with
    | JVal.dict ds => return dictGetD ds "name" (JVal.str "")
    | _ => return JVal.str ""
  else if pyEq field_type (JVal.str "relationship") then
    match field_value with
    | JVal.list xs => do
        let parts ← relParts xs
        let s ← pyJoin ", " parts
        return JVal.str s
    | _ => return JVal.str ""
  else if pyEq field_type (JVal.str "formula") then
    match field_value with
    | JVal.dict ds => return dictGetD ds "text" (JVal.str "")
    | _ => return JVal.str ""
  else if isType field_type ["created_by", "updated_by"] then
    match field_value with
    | JVal.dict ds => return dictGetD ds "username" (JVal.str "")
    | _ => return JVal.str ""
  else
    return JVal.str (pyStr field_value)

/-- Membership of a key in a list of dict keys, by Python `==`. -/
def memJ (ks : List JVal) (k : JVal) : Bool :=
  ks.any (fun x => pyEq x k)

/-- One step of `custom_field_names[field.get("name")] = True`: assigning an
existing key keeps the dict unchanged (the value is already `True` and
insertion order is preserved), a new key is appended. -/
def insertKey (ks : List JVal) (k : JVal) : List JVal :=
  if memJ ks k then ks else ks ++ [k]

/-- The inner `for field in task.get("custom_fields", [])` loop of column
discovery: each field's name is inserted into the key sequence. -/
def insertTaskFields (acc : List JVal) : List JVal → Except PyErr (List JVal)
  | [] => Except.ok acc
  | f :: rest => do
      let n ← pyGet f "name" JVal.none
      insertTaskFields (insertKey acc n) rest

/-- The outer task loop of column discovery. -/
def discoverGo (acc : List JVal) : List JVal → Except PyErr (List JVal)
  | [] => Except.ok acc
  | task :: rest => do
      let cfv ← pyGet task "custom_fields" (JVal.list [])
      let fields ← pyIter cfv
      let acc2 ← insertTaskFields acc fields
      discoverGo acc2 rest

/-- Column discovery (src/main.py lines 175-181): the key sequence of the
`custom_field_names` dict after both loops, i.e. the custom-field names of
all tasks, de-duplicated, in insertion order. -/
def discover_columns (tasks : List JVal) : Except PyErr (List JVal) :=
  discoverGo [] tasks

/-- First-seen-order de-duplication of a list of values under Python `==`.
Models the key sequence of an insertion-ordered dict built left to right,
and also serves as the specification-side "de-duplicated union, first-seen
order" of §4.2. -/
def dedupFirstSeen : List JVal → List JVal
  | [] => []
  | x :: xs => x :: dedupFirstSeen (xs.filter (fun y => !pyEq x y))
termination_by l => l.length
decreasing_by
  simp only [List.length_cons]
  exact Nat.lt_succ_of_le (List.length_filter_le _ _)

/-- Python `field_name in custom_field_values` on the modelled dict. -/
def memKeys (m : List (JVal × JVal)) (k : JVal) : Bool :=
  m.any (fun p => pyEq p.1 k)

/-- Python `custom_field_values[field_name] = v` when the key is present:
the slot is overwritten in place, order unchanged. -/
def updateVals (m : List (JVal × JVal)) (k v : JVal) : List (JVal × JVal) :=
  m.map (fun p => if pyEq p.1 k then (p.1, v) else p)

/-- The `for field in task.get("custom_fields", [])` loop of
`_process_task`: fields whose name is a known column overwrite that
column's slot with their normalized value; others are ignored. -/
def processFields (m : List (JVal × JVal)) : List JVal → Except PyErr (List (JVal × JVal))
  | [] => Except.ok m
  | f :: rest => do
      let fname ← pyGet f "name" JVal.none
      if memKeys m fname then do
        let v ← _get_field_value f
        processFields (updateVals m fname v) rest
      else
        processFields m rest

/-- Embedding of `ClickUpExporter._process_task` (src/main.py lines
137-157): the task's name followed by one slot per column.  The dict
comprehension `\x7bname: "" for name in custom_field_names.keys()\x7d` is
modelled by left-to-right key insertion (first-seen order, duplicates
collapse) paired with `""`. -/
def _process_task (task : JVal) (custom_field_names : List JVal) : Except PyErr (List JVal) := do
  let nm ← pyGet task "name" (JVal.str "")
  let init := (custom_field_names.foldl insertKey []).map (fun n => (n, JVal.str ""))
  let cfv ← pyGet task "custom_fields" (JVal.list [])
  let fields ← pyIter cfv
  let final ← processFields init fields
  pure (nm :: final.map Prod.snd)

/-- One worksheet: its title and its appended rows (header row first). -/
structure Sheet where
  title : String
  rows : List (List JVal)

/-- The per-list loop of `ClickUpExporter.export_to_excel` (src/main.py
lines 167-186), with task retrieval abstracted by `getTasks` (the external
collaborator): a list with no tasks is skipped, otherwise a sheet is
created carrying the header row and one row per task. -/
def export_sheets (getTasks : String → List JVal) : List (String × String) → Except PyErr (List Sheet)
  | [] => Except.ok []
  | (sheet_name, list_id) :: rest => do
      let tasks := getTasks list_id
      if tasks.isEmpty then
        export_sheets getTasks rest
      else do
        let cols ← discover_columns tasks
        let headers := JVal.str "Task Name" :: cols
        let rows ← tasks.mapM (fun t => _process_task t cols)
        let restSheets ← export_sheets getTasks rest
        pure ({ title := sheet_name, rows := headers :: rows } :: restSheets)

/-- The blank default sheet `openpyxl.Workbook()` starts with. -/
def blankSheet : Sheet :=
  { title := "Sheet", rows := [] }

/-- Python `del workbook["Sheet"]`: removes the first sheet with the given
title. -/
def removeFirstTitled (t : String) : List Sheet → List Sheet
  | [] => []
  | s :: rest => if s.title == t then rest else s :: removeFirstTitled t rest

/-- Embedding of `ClickUpExporter.export_to_excel` (src/main.py lines
159-194) up to the saved workbook content: the default blank sheet
followed by the data sheets, with the default removed when more than one
sheet exists (lines 188-190).  An `.error` models an exception caught by
the surrounding `try`, in which case nothing is saved. -/
def export_to_excel (getTasks : String → List JVal) (list_ids : List (String × String)) :
    Except PyErr (List Sheet) := do
  let dataSheets ← export_sheets getTasks list_ids
  let sheets := blankSheet :: dataSheets
  if sheets.length > 1 && (sheets.map Sheet.title).contains "Sheet" then
    pure (removeFirstTitled "Sheet" sheets)
  else
    pure sheets

/-- Specification-side extraction of one task's field names, in task order
(succeeds on well-shaped tasks). -/
def taskFieldNames (task : JVal) : Except PyErr (List JVal) := do
  let cfv ← pyGet task "custom_fields" (JVal.list [])
  let fields ← pyIter cfv
  fields.mapM (fun f => pyGet f "name" JVal.none)

/-- Name of a field record (`field.get("name")` on a dict, `None` view
otherwise); total helper for specification-side statements. -/
def fieldNameD (f : JVal) : JVal :=
  match f with
  | JVal.dict es => dictGetD es "name" JVal.none
  | _ => JVal.none

/-- The last field of `fields` whose name equals column `c` (last write
wins), if any. -/
def lastFieldFor (fields : List JVal) (c : JVal) : Option JVal :=
  (fields.filter (fun f => pyEq c (fieldNameD f))).getLast?

/-- Specification-side slot value of column `c` (§4.3): the normalized
value of the task's last field named `c`, or the empty string when the
task has no such field. -/
def slotSpec (fields : List JVal) (c : JVal) : JVal :=
  match lastFieldFor fields c with
  | some f => ((_get_field_value f).toOption).getD (JVal.str "")
  | Option.none => JVal.str ""

/-- Pairwise distinctness of keys under Python `==`. -/
def nodupKeys : List JVal → Bool
  | [] => true
  | x :: xs => xs.all (fun y => !pyEq x y) && nodupKeys xs

/-- Whether a value is a Python list. -/
def isList : JVal → Bool
  | JVal.list _ => true
  | _ => false

/-- Whether a value is a Python number (bools included, as in CPython). -/
def isNumeric : JVal → Bool
  | JVal.bool _ => true
  | JVal.int _ => true
  | JVal.float _ => true
  | _ => false

/-- Total `.get` view on an arbitrary value: dict lookup with default, the
default itself on non-dicts. -/
def dictFieldD (o : JVal) (k : String) (d : JVal) : JVal :=
  match o with
  | JVal.dict es => dictGetD es k d
  | _ => d

/-- Key `k` is absent or bound to a string (so `o.get(k, "")` is a string). -/
def strOrAbsentB (es : List (String × JVal)) (k : String) : Bool :=
  isStr (dictGetD es k (JVal.str ""))

/-- Expected shape of one `type_config.options` entry: a dict whose `name`
is a string or absent. -/
def optionShapeB : JVal → Bool
  | JVal.dict oes => strOrAbsentB oes "name"
  | _ => false

/-- Expected shape of the `type_config`/`options` path of a field record:
`type_config` absent, or a dict whose `options` is absent or a list of
well-shaped options. -/
def optionsShapeB (es : List (String × JVal)) : Bool :=
  match es.lookup "type_config" with
  | Option.none => true
  | some (JVal.dict tc) =>
      match tc.lookup "options" with
      | Option.none => true
      | some (JVal.list os) => os.all optionShapeB
      | some _ => false
  | some _ => false

/-- Expected shape of one `labels`/`multi_select` item: a dict carrying a
string `name`, a dict without `name`, or a bare identifier. -/
def itemShapeB : JVal → Bool
  | JVal.dict ies =>
      match ies.lookup "name" with
      | some nv => isStr nv
      | Option.none => true
  | _ => true

/-- Expected shape of one `relationship` entry: falsy (skipped), or a dict
whose `name` is a string or absent. -/
def relEntryShape (x : JVal) : Bool :=
  if pyTruthy x then
    match x with
    | JVal.dict ds => strOrAbsentB ds "name"
    | _ => false
  else true

/-- Expected shape of one `users` entry: non-dicts are filtered out by the
code itself, dicts need a string-or-absent `username`. -/
def usersEntryShape : JVal → Bool
  | JVal.dict ues => strOrAbsentB ues "username"
  | _ => true

/-- A field record whose payload matches its declared type's expected shape
(§4.1 of the spec): the record is a dict, and per declared type the value
is either null or of the advertised form, with every name that can reach
the output being a string.  On such records the normalizer is total. -/
def wellShapedField (field : JVal) : Bool :=
  match field with
  | JVal.dict es =>
      let field_type := dictGetD es "type" JVal.none
      let field_value := dictGetD es "value" JVal.none
      if isNone field_value then true
      else if isType field_type ["text", "short_text", "email", "phone", "url"] then true
      else if isType field_type ["number", "rating", "auto_increment"] then true
      else if pyEq field_type (JVal.str "checkbox") then true
      else if pyEq field_type (JVal.str "dropdown") then
        match field_value with
        | JVal.str _ => optionsShapeB es
        | JVal.dict ds => strOrAbsentB ds "name"
        | _ => true
      else if pyEq field_type (JVal.str "labels") || pyEq field_type (JVal.str "multi_select") then
        match field_value with
        | JVal.list items => optionsShapeB es && items.all itemShapeB
        | _ => true
      else if pyEq field_type (JVal.str "date") || pyEq field_type (JVal.str "time") then
        isNumeric field_value
      else if pyEq field_type (JVal.str "users") then
        match field_value with
        | JVal.list users => users.all usersEntryShape
        | _ => true
      else if pyEq field_type (JVal.str "location") then
        match field_value with
        | JVal.dict ds => strOrAbsentB ds "name"
        | _ => true
      else if pyEq field_type (JVal.str "relationship") then
        match field_value with
        | JVal.list xs => xs.all relEntryShape
        | _ => true
      else if pyEq field_type (JVal.str "formula") then
        match field_value with
        | JVal.dict ds => strOrAbsentB ds "text"
        | _ => true
      else if isType field_type ["created_by", "updated_by"] then
        match field_value with
        | JVal.dict ds => strOrAbsentB ds "username"
        | _ => true
      else true
  | _ => false

/-- Claim-side resolution of a bare `labels`/`multi_select` identifier: the
name of the (unique) matching option, or nothing when unresolvable. -/
def optionNameFor (os : List JVal) (item : JVal) : List String :=
  match os.find? (fun o => pyEq (dictFieldD o "id" JVal.none) item) with
  | some o => [strOf (dictFieldD o "name" (JVal.str ""))]
  | Option.none => []

/-- Claim-side resolution of one `labels`/`multi_select` item (§4.1): an
object carrying `name` contributes it directly, anything else is resolved
against the options by id. -/
def resolvedNames (os : List JVal) (item : JVal) : List String :=
  match item with
  | JVal.dict ies =>
      match ies.lookup "name" with
      | some nv => [strOf nv]
      | Option.none => optionNameFor os item
  | _ => optionNameFor os item

/-- Code-side resolution of one `labels`/`multi_select` item, with the
multiplicity the no-break loop actually produces: every matching option
contributes its name. -/
def resolveSpecJ (os : List JVal) (item : JVal) : List JVal :=
  match item with
  | JVal.dict ies =>
      match ies.lookup "name" with
      | some nv => [nv]
      | Option.none =>
          (os.filter (fun o => pyEq (dictFieldD o "id" JVal.none) item)).map
            (fun o => dictFieldD o "name" (JVal.str ""))
  | _ =>
      (os.filter (fun o => pyEq (dictFieldD o "id" JVal.none) item)).map
        (fun o => dictFieldD o "name" (JVal.str ""))

/-- Retrieval stub for the end-to-end scenario of C2: the first list is
empty, the second holds one task with a single text field. -/
def c2GetTasks (list_id : String) : List JVal :=
  if list_id == "L2" then
    [JVal.dict [("name", JVal.str "Task Two"),
      ("custom_fields", JVal.list
        [JVal.dict [("name", JVal.str "Status"), ("type", JVal.str "text"),
          ("value", JVal.str "Open")]])]]
  else []

/-- First task of the C3 scenario: fields named A and B. -/
def c3TaskAB : JVal :=
  JVal.dict [("name", JVal.str "t1"),
    ("custom_fields", JVal.list
      [JVal.dict [("name", JVal.str "A")], JVal.dict [("name", JVal.str "B")]])]

/-- Second task of the C3 scenario: fields named B and C. -/
def c3TaskBC : JVal :=
  JVal.dict [("name", JVal.str "t2"),
    ("custom_fields", JVal.list
      [JVal.dict [("name", JVal.str "B")], JVal.dict [("name", JVal.str "C")]])]


/-- Options of the C5 dropdown scenario. -/
def c5Options : List JVal :=
  [JVal.dict [("id", JVal.str "o1"), ("name", JVal.str "High")],
   JVal.dict [("id", JVal.str "o2"), ("name", JVal.str "Low")]]

/-- Dropdown field of the C5 scenario: the raw value is the identifier
`o2`, present in the options. -/
def c5Field : JVal :=
  JVal.dict [("name", JVal.str "Priority"), ("type", JVal.str "dropdown"),
    ("value", JVal.str "o2"),
    ("type_config", JVal.dict [("options", JVal.list c5Options)])]

/-- Options of the C6 multi-select scenario. -/
def c6Options : List JVal :=
  [JVal.dict [("id", JVal.str "l1"), ("name", JVal.str "Red")],
   JVal.dict [("id", JVal.str "l2"), ("name", JVal.str "Green")],
   JVal.dict [("id", JVal.str "l3"), ("name", JVal.str "Blue")]]

/-- Items of the C6 scenario: two resolvable bare identifiers and one
already-named object, in this order. -/
def c6Items : List JVal :=
  [JVal.str "l1", JVal.dict [("name", JVal.str "Custom")], JVal.str "l3"]

/-- Multi-select field of the C6 scenario. -/
def c6Field : JVal :=
  JVal.dict [("name", JVal.str "Tags"), ("type", JVal.str "multi_select"),
    ("value", JVal.list c6Items),
    ("type_config", JVal.dict [("options", JVal.list c6Options)])]

/-- Fields of the C4 scenario task: two fields named `A` (last write wins),
one field named `X` outside the column set, and no field named `B`. -/
def c4Fields : List JVal :=
  [JVal.dict [("name", JVal.str "A"), ("type", JVal.str "text"),
    ("value", JVal.str "first")],
   JVal.dict [("name", JVal.str "X"), ("type", JVal.str "text"),
    ("value", JVal.str "ignored")],
   JVal.dict [("name", JVal.str "A"), ("type", JVal.str "text"),
    ("value", JVal.str "second")]]

/-- Task of the C4 scenario. -/
def c4Task : JVal :=
  JVal.dict [("name", JVal.str "T"), ("custom_fields", JVal.list c4Fields)]

/-- Column set of the C4 scenario. -/
def c4Cols : List JVal :=
  [JVal.str "A", JVal.str "B"]

/-- Well-shaped labels field used as the C1 witness input. -/
def c1Field : JVal :=
  JVal.dict [("name", JVal.str "Tags"), ("type", JVal.str "labels"),
    ("value", JVal.list [JVal.str "l1", JVal.str "zz"]),
    ("type_config", JVal.dict [("options", JVal.list c6Options)])]

theorem exbind_ok {α β : Type} (a : α) (f : α → Except PyErr β) :
    (Except.ok a : Except PyErr α) >>= f = f a := rfl

theorem exbind_error {α β : Type} (e : PyErr) (f : α → Except PyErr β) :
    (Except.error e : Except PyErr α) >>= f = Except.error e := rfl

theorem expure {α : Type} (a : α) : (pure a : Except PyErr α) = Except.ok a := rfl

/-- Helper: a configuration all of whose lists retrieve no tasks produces
no data sheet at all. -/
theorem export_sheets_of_all_empty (getTasks : String → List JVal) :
    ∀ cfg : List (String × String), (∀ p ∈ cfg, getTasks p.2 = []) →
      export_sheets getTasks cfg = Except.ok []
  | [], _ => rfl
  | (sn, lid) :: rest, h => by
      have h1 : getTasks lid = [] := h (sn, lid) (List.mem_cons_self _ _)
      have h2 := export_sheets_of_all_empty getTasks rest
        (fun p hp => h p (List.mem_cons_of_mem _ hp))
      simp [export_sheets, h1, h2]

/-- C2: a configured list whose retrieval yields an empty task sequence
produces no sheet and processing continues with the remaining lists; and
for the concrete two-list configuration in which the first list is empty
and the second holds one task with a single text field `Status` = `Open`,
the export produces exactly one data sheet with header row
`["Task Name", "Status"]` and one data row `[task name, "Open"]`. -/
theorem c2_empty_list_skipped_and_concrete_export :
    (∀ (getTasks : String → List JVal) (sheet_name list_id : String)
        (rest : List (String × String)),
        getTasks list_id = [] →
        export_sheets getTasks ((sheet_name, list_id) :: rest) =
          export_sheets getTasks rest)
    ∧ export_sheets c2GetTasks [("S1", "L1"), ("S2", "L2")] =
        Except.ok [Sheet.mk "S2"
          [[JVal.str "Task Name", JVal.str "Status"],
           [JVal.str "Task Two", JVal.str "Open"]]] := by
  constructor
  · intro getTasks sheet_name list_id rest h
    simp [export_sheets, h]
  · rfl

/-- Witness for C2: the skip rule applied to the concrete configuration. -/
theorem c2_witness :
    export_sheets c2GetTasks [("S1", "L1"), ("S2", "L2")] =
      export_sheets c2GetTasks [("S2", "L2")] :=
  c2_empty_list_skipped_and_concrete_export.1 c2GetTasks "S1" "L1" [("S2", "L2")] rfl

/-- C10: the default placeholder sheet `"Sheet"` is removed exactly when at
least one data sheet was created, and a run in which every configured list
yields no tasks still saves a workbook consisting of the single blank
default sheet. -/
theorem c10_default_sheet_kept_iff_no_data (getTasks : String → List JVal)
    (cfg : List (String × String)) (ds : List Sheet)
    (h : export_sheets getTasks cfg = Except.ok ds) :
    export_to_excel getTasks cfg =
      Except.ok (if ds.isEmpty then [blankSheet] else ds)
    ∧ ((∀ p ∈ cfg, getTasks p.2 = []) →
        export_to_excel getTasks cfg = Except.ok [blankSheet]) := by
  have hmain : export_to_excel getTasks cfg =
      Except.ok (if ds.isEmpty then [blankSheet] else ds) := by
    unfold export_to_excel
    rw [h, exbind_ok]
    cases ds with
    | nil => simp [blankSheet, expure]
    | cons s rest => simp [blankSheet, removeFirstTitled, expure]
  refine ⟨hmain, fun hall => ?_⟩
  have h0 := export_sheets_of_all_empty getTasks cfg hall
  rw [h] at h0
  injection h0 with h0
  subst h0
  simpa using hmain

/-- Witness for C10 at a one-list configuration whose list is empty. -/
theorem c10_witness :
    export_to_excel (fun _ => []) [("A", "1")] = Except.ok [blankSheet] :=
  (c10_default_sheet_kept_iff_no_data (fun _ => []) [("A", "1")] [] rfl).2
    (fun _ _ => rfl)

/-- C7 counterexample: a `checkbox` field with null raw value normalizes to
the empty string, not `"No"`, although null is falsy — the global null
check precedes the checkbox branch. -/
theorem c7_checkbox_null_counterexample :
    _get_field_value (JVal.dict
      [("name", JVal.str "done"), ("type", JVal.str "checkbox"),
       ("value", JVal.none)]) = Except.ok (JVal.str "")
    ∧ pyTruthy JVal.none = false
    ∧ ("" : String) ≠ "No" :=
  ⟨rfl, rfl, by decide⟩

/-- C7 amended: a `checkbox` field normalizes to `"Yes"` exactly when its
raw value is truthy and to `"No"` when it is falsy but non-null; a
null/absent raw value yields the empty string instead. -/
theorem c7_checkbox_amended (field v : JVal)
    (hT : pyGet field "type" JVal.none = Except.ok (JVal.str "checkbox"))
    (hV : pyGet field "value" JVal.none = Except.ok v) :
    _get_field_value field =
      Except.ok (JVal.str (if isNone v then ""
        else if pyTruthy v then "Yes" else "No")) := by
  cases field with
  | dict es =>
      have hT2 : dictGetD es "type" JVal.none = JVal.str "checkbox" := by
        injection hT
      have hV2 : dictGetD es "value" JVal.none = v := by injection hV
      unfold _get_field_value
      simp only [pyGet, exbind_ok, hT2, hV2]
      cases v <;> rfl
  | none => cases hT
  | bool b => cases hT
  | int n => cases hT
  | float q => cases hT
  | str s => cases hT
  | list xs => cases hT

/-- Witness for C7: a truthy non-null checkbox value. -/
theorem c7_checkbox_witness :
    _get_field_value (JVal.dict [("type", JVal.str "checkbox"), ("value", JVal.int 5)]) =
      Except.ok (JVal.str (if isNone (JVal.int 5) then ""
        else if pyTruthy (JVal.int 5) then "Yes" else "No")) :=
  c7_checkbox_amended (JVal.dict [("type", JVal.str "checkbox"), ("value", JVal.int 5)])
    (JVal.int 5) rfl rfl

/-- C8: a `date` or `time` field with numeric raw value normalizes to the
stringification of the value divided by 1000 (exact rational division, no
date formatting); in particular the millisecond value 1700000000000 renders
as `"1700000000.0"`. -/
theorem c8_date_time_seconds (field v : JVal) (t : String)
    (hT : pyGet field "type" JVal.none = Except.ok (JVal.str t))
    (ht : t = "date" ∨ t = "time")
    (hV : pyGet field "value" JVal.none = Except.ok v) :
    (∀ n : Int, v = JVal.int n →
        _get_field_value field = Except.ok (JVal.str (pyFloatStr (Rat.divInt n 1000))))
    ∧ (∀ q : ℚ, v = JVal.float q →
        _get_field_value field = Except.ok (JVal.str (pyFloatStr (q / 1000))))
    ∧ (∀ n : Int, Rat.divInt n 1000 = (n : ℚ) / 1000)
    ∧ pyFloatStr (Rat.divInt 1700000000000 1000) = "1700000000.0" := by
  cases field with
  | dict es =>
      have hT2 : dictGetD es "type" JVal.none = JVal.str t := by injection hT
      have hV2 : dictGetD es "value" JVal.none = v := by injection hV
      refine ⟨?_, ?_, ?_, ?_⟩
      · rintro n rfl
        unfold _get_field_value
        simp only [pyGet, exbind_ok, hT2, hV2]
        rcases ht with rfl | rfl <;> rfl
      · rintro q rfl
        unfold _get_field_value
        simp only [pyGet, exbind_ok, hT2, hV2]
        rcases ht with rfl | rfl <;> rfl
      · intro n
        rw [Rat.divInt_eq_div]
        norm_num
      · rfl
  | none => cases hT
  | bool b => cases hT
  | int n => cases hT
  | float q => cases hT
  | str s => cases hT
  | list xs => cases hT

/-- Witness for C8 at the concrete millisecond timestamp of the claim. -/
theorem c8_witness :
    _get_field_value (JVal.dict [("name", JVal.str "Due"), ("type", JVal.str "date"),
      ("value", JVal.int 1700000000000)]) = Except.ok (JVal.str "1700000000.0") := by
  have h := (c8_date_time_seconds
    (JVal.dict [("name", JVal.str "Due"), ("type", JVal.str "date"),
      ("value", JVal.int 1700000000000)])
    (JVal.int 1700000000000) "date" rfl (Or.inl rfl) rfl).1 1700000000000 rfl
  exact h.trans (by rfl)

/-- Helper: `", ".join` succeeds on all-string parts. -/
theorem pyJoin_of_all_str (sep : String) (parts : List JVal) (h : parts.all isStr = true) :
    pyJoin sep parts = Except.ok (String.intercalate sep (parts.map strOf)) := by
  simp [pyJoin, h]

/-- Helper: on a relationship list whose truthy entries are dicts with
string-or-absent names, the generator collects exactly the names of the
truthy entries, and they are all strings. -/
theorem relParts_of_shaped :
    ∀ xs : List JVal, xs.all relEntryShape = true →
      relParts xs =
        Except.ok ((xs.filter pyTruthy).map (fun x => dictFieldD x "name" (JVal.str "")))
      ∧ ((xs.filter pyTruthy).map
          (fun x => dictFieldD x "name" (JVal.str ""))).all isStr = true
  | [], _ => ⟨rfl, rfl⟩
  | x :: rest, h => by
      rw [List.all_cons, Bool.and_eq_true] at h
      obtain ⟨hx, hrest⟩ := h
      have ih := relParts_of_shaped rest hrest
      by_cases ht : pyTruthy x = true
      · cases x with
        | dict ds =>
            have hnm : strOrAbsentB ds "name" = true := by
              simpa [relEntryShape, ht] using hx
            constructor
            · simp only [relParts, ht, if_true, pyGet, exbind_ok, ih.1, expure,
                List.filter_cons_of_pos ht]
              simp [dictFieldD]
            · rw [List.filter_cons_of_pos ht]
              simp only [List.map_cons, List.all_cons, Bool.and_eq_true]
              exact ⟨by simpa [dictFieldD, strOrAbsentB] using hnm, ih.2⟩
        | none => simp [pyTruthy] at ht
        | bool b => simp [relEntryShape, ht] at hx
        | int n => simp [relEntryShape, ht] at hx
        | float q => simp [relEntryShape, ht] at hx
        | str s => simp [relEntryShape, ht] at hx
        | list ys => simp [relEntryShape, ht] at hx
      · have ht2 : pyTruthy x = false := by
          cases hpt : pyTruthy x
          · rfl
          · exact absurd hpt ht
        have hfil : List.filter pyTruthy (x :: rest) = List.filter pyTruthy rest := by
          simp [List.filter_cons, ht2]
        constructor
        · rw [hfil]
          simpa only [relParts, ht2, Bool.false_eq_true, if_false] using ih.1
        · rw [hfil]
          exact ih.2

/-- Helper: reduction of the normalizer on a `relationship` field, by raw
value shape. -/
theorem _get_field_value_relationship (es : List (String × JVal))
    (hT2 : dictGetD es "type" JVal.none = JVal.str "relationship") :
    _get_field_value (JVal.dict es) =
      (match dictGetD es "value" JVal.none with
       | JVal.none => Except.ok (JVal.str "")
       | JVal.list xs => do
           let parts ← relParts xs
           let s ← pyJoin ", " parts
           pure (JVal.str s)
       | _ => Except.ok (JVal.str "")) := by
  unfold _get_field_value
  simp only [pyGet, exbind_ok, hT2]
  cases dictGetD es "value" JVal.none <;> rfl

/-- C9 counterexample: a `relationship` list containing an empty dict (a
non-null falsy object) drops that entry entirely — the code filters on
truthiness, not on null-ness — so the result is `"A"` where the claim
(skip exactly the nulls, absent name contributes `""`) demands `", A"`. -/
theorem c9_relationship_falsy_counterexample :
    _get_field_value (JVal.dict
      [("name", JVal.str "rel"), ("type", JVal.str "relationship"),
       ("value", JVal.list [JVal.dict [], JVal.dict [("name", JVal.str "A")]])]) =
      Except.ok (JVal.str "A")
    ∧ (JVal.dict [] : JVal) ≠ JVal.none
    ∧ ("A" : String) ≠ ", A" :=
  ⟨rfl, fun h => JVal.noConfusion h, by decide⟩

/-- C9 amended: for a `relationship` field whose value is a sequence in
which every truthy entry is an object with string-or-absent `name`,
normalization joins the names of the truthy entries (empty string when the
name is absent) with `", "`, skipping exactly the falsy entries (null, but
also `{}`, `0`, `""`, `[]`, `False`); a non-null non-sequence value yields
the empty string. -/
theorem c9_relationship_amended (field v : JVal)
    (hT : pyGet field "type" JVal.none = Except.ok (JVal.str "relationship"))
    (hV : pyGet field "value" JVal.none = Except.ok v) :
    (∀ xs : List JVal, v = JVal.list xs → xs.all relEntryShape = true →
        _get_field_value field = Except.ok (JVal.str (String.intercalate ", "
          ((xs.filter pyTruthy).map
            (fun x => strOf (dictFieldD x "name" (JVal.str "")))))))
    ∧ (isNone v = false → isList v = false →
        _get_field_value field = Except.ok (JVal.str "")) := by
  cases field with
  | dict es =>
      have hT2 : dictGetD es "type" JVal.none = JVal.str "relationship" := by
        injection hT
      have hV2 : dictGetD es "value" JVal.none = v := by injection hV
      constructor
      · rintro xs rfl hsh
        rw [_get_field_value_relationship es hT2, hV2]
        obtain ⟨h1, h2⟩ := relParts_of_shaped xs hsh
        simp only [h1, exbind_ok, pyJoin_of_all_str _ _ h2, expure, List.map_map]
        rfl
      · intro hn hl
        rw [_get_field_value_relationship es hT2, hV2]
        cases v with
        | none => simp [isNone] at hn
        | list xs => simp [isList] at hl
        | bool b => rfl
        | int n => rfl
        | float q => rfl
        | str s => rfl
        | dict ds => rfl
  | none => cases hT
  | bool b => cases hT
  | int n => cases hT
  | float q => cases hT
  | str s => cases hT
  | list xs => cases hT

/-- Witness for C9: a relationship list with a null entry, a named linked
task and a falsy number. -/
theorem c9_witness :
    _get_field_value (JVal.dict
      [("type", JVal.str "relationship"),
       ("value", JVal.list [JVal.none, JVal.dict [("name", JVal.str "B")], JVal.int 0])]) =
      Except.ok (JVal.str (String.intercalate ", "
        (([JVal.none, JVal.dict [("name", JVal.str "B")], JVal.int 0].filter pyTruthy).map
          (fun x => strOf (dictFieldD x "name" (JVal.str "")))))) :=
  (c9_relationship_amended
    (JVal.dict [("type", JVal.str "relationship"),
      ("value", JVal.list [JVal.none, JVal.dict [("name", JVal.str "B")], JVal.int 0])])
    (JVal.list [JVal.none, JVal.dict [("name", JVal.str "B")], JVal.int 0])
    rfl rfl).1
    [JVal.none, JVal.dict [("name", JVal.str "B")], JVal.int 0] rfl rfl

/-- Helper: reduction of the normalizer on a `dropdown` field, by raw value
shape. -/
theorem _get_field_value_dropdown (es : List (String × JVal))
    (hT2 : dictGetD es "type" JVal.none = JVal.str "dropdown") :
    _get_field_value (JVal.dict es) =
      (match dictGetD es "value" JVal.none with
       | JVal.none => Except.ok (JVal.str "")
       | JVal.str s => do
           let tc ← pyGet (JVal.dict es) "type_config" (JVal.dict [])
           let optv ← pyGet tc "options" (JVal.list [])
           let options ← pyIter optv
           dropdownLookup (JVal.str s) options
       | JVal.dict ds => Except.ok (dictGetD ds "name" (JVal.str ""))
       | v => Except.ok (JVal.str (pyStr v))) := by
  unfold _get_field_value
  simp only [pyGet, exbind_ok, hT2]
  cases dictGetD es "value" JVal.none <;> rfl

/-- Helper: with dict options, the dropdown loop returns the name of the
first option whose id matches the raw identifier, and the raw identifier
itself when no option matches. -/
theorem dropdownLookup_of_dicts (fv : JVal) :
    ∀ os : List JVal, os.all isDict = true →
      dropdownLookup fv os =
        Except.ok
          (match os.find? (fun o => pyEq (dictFieldD o "id" JVal.none) fv) with
           | some o => dictFieldD o "name" (JVal.str "")
           | Option.none => fv)
  | [], _ => rfl
  | o :: rest, h => by
      rw [List.all_cons, Bool.and_eq_true] at h
      obtain ⟨ho, hrest⟩ := h
      cases o with
      | dict oes =>
          by_cases hm : pyEq (dictGetD oes "id" JVal.none) fv = true
          · have hfind : List.find? (fun o => pyEq (dictFieldD o "id" JVal.none) fv)
                (JVal.dict oes :: rest) = some (JVal.dict oes) :=
              List.find?_cons_of_pos _ (by simpa [dictFieldD] using hm)
            rw [hfind]
            simp only [dropdownLookup, pyGet, exbind_ok, hm, if_true]
            rfl
          · have hm2 : ¬((fun o => pyEq (dictFieldD o "id" JVal.none) fv)
                (JVal.dict oes) = true) := by simpa [dictFieldD] using hm
            have hfind : List.find? (fun o => pyEq (dictFieldD o "id" JVal.none) fv)
                (JVal.dict oes :: rest) =
                List.find? (fun o => pyEq (dictFieldD o "id" JVal.none) fv) rest :=
              List.find?_cons_of_neg _ hm2
            rw [hfind]
            simp only [dropdownLookup, pyGet, exbind_ok]
            rw [if_neg hm]
            exact dropdownLookup_of_dicts fv rest hrest
      | none => simp [isDict] at ho
      | bool b => simp [isDict] at ho
      | int n => simp [isDict] at ho
      | float q => simp [isDict] at ho
      | str s => simp [isDict] at ho
      | list xs => simp [isDict] at ho

/-- C5: dropdown normalization: a string identifier is looked up in
`type_config.options` by id and yields the first matching option's name; an
identifier matching no option is returned unchanged; an object value yields
its `name` (default empty); any other non-null value is stringified. -/
theorem c5_dropdown_resolution (field v : JVal)
    (hT : pyGet field "type" JVal.none = Except.ok (JVal.str "dropdown"))
    (hV : pyGet field "value" JVal.none = Except.ok v) :
    (∀ (s : String) (tc optv : JVal) (os : List JVal),
        v = JVal.str s →
        pyGet field "type_config" (JVal.dict []) = Except.ok tc →
        pyGet tc "options" (JVal.list []) = Except.ok optv →
        pyIter optv = Except.ok os →
        os.all isDict = true →
        _get_field_value field =
          Except.ok
            (match os.find? (fun o => pyEq (dictFieldD o "id" JVal.none) v) with
             | some o => dictFieldD o "name" (JVal.str "")
             | Option.none => v))
    ∧ (∀ ds : List (String × JVal), v = JVal.dict ds →
        _get_field_value field = Except.ok (dictGetD ds "name" (JVal.str "")))
    ∧ (isNone v = false → isStr v = false → isDict v = false →
        _get_field_value field = Except.ok (JVal.str (pyStr v))) := by
  cases field with
  | dict es =>
      have hT2 : dictGetD es "type" JVal.none = JVal.str "dropdown" := by injection hT
      have hV2 : dictGetD es "value" JVal.none = v := by injection hV
      refine ⟨?_, ?_, ?_⟩
      · rintro s tc optv os rfl htc hopt hit hos
        rw [_get_field_value_dropdown es hT2, hV2]
        simp only [htc, hopt, hit, exbind_ok]
        exact dropdownLookup_of_dicts (JVal.str s) os hos
      · rintro ds rfl
        rw [_get_field_value_dropdown es hT2, hV2]
      · intro h1 h2 h3
        rw [_get_field_value_dropdown es hT2, hV2]
        cases v with
        | none => simp [isNone] at h1
        | str s => simp [isStr] at h2
        | dict ds => simp [isDict] at h3
        | bool b => rfl
        | int n => rfl
        | float q => rfl
        | list xs => rfl
  | none => cases hT
  | bool b => cases hT
  | int n => cases hT
  | float q => cases hT
  | str s => cases hT
  | list xs => cases hT

/-- Witness for C5: the identifier `o2` resolves to the option named
`Low`. -/
theorem c5_witness :
    _get_field_value c5Field = Except.ok (JVal.str "Low") := by
  have h := (c5_dropdown_resolution c5Field (JVal.str "o2") rfl rfl).1 "o2"
    (JVal.dict [("options", JVal.list c5Options)]) (JVal.list c5Options) c5Options
    rfl rfl rfl rfl rfl
  exact h.trans (by rfl)

/-- Helper: reduction of the normalizer on a `labels`/`multi_select` field,
by raw value shape. -/
theorem _get_field_value_labels (es : List (String × JVal)) (t : String)
    (hT2 : dictGetD es "type" JVal.none = JVal.str t)
    (ht : t = "labels" ∨ t = "multi_select") :
    _get_field_value (JVal.dict es) =
      (match dictGetD es "value" JVal.none with
       | JVal.none => Except.ok (JVal.str "")
       | JVal.list items => do
           let tc ← pyGet (JVal.dict es) "type_config" (JVal.dict [])
           let optv ← pyGet tc "options" (JVal.list [])
           let options ← pyIter optv
           let names ← labelsNames options items
           let s ← pyJoin ", " names
           pure (JVal.str s)
       | _ => Except.ok (JVal.str "")) := by
  unfold _get_field_value
  simp only [pyGet, exbind_ok, hT2]
  rcases ht with rfl | rfl <;> cases dictGetD es "value" JVal.none <;> rfl

/-- Helper: with dict options, the inner id-search loop collects the names
of every matching option, in option order. -/
theorem idMatches_of_dicts (item : JVal) :
    ∀ os : List JVal, os.all isDict = true →
      idMatches item os =
        Except.ok
          ((os.filter (fun o => pyEq (dictFieldD o "id" JVal.none) item)).map
            (fun o => dictFieldD o "name" (JVal.str "")))
  | [], _ => rfl
  | o :: rest, h => by
      rw [List.all_cons, Bool.and_eq_true] at h
      obtain ⟨ho, hrest⟩ := h
      cases o with
      | dict oes =>
          have ih := idMatches_of_dicts item rest hrest
          by_cases hm : pyEq (dictGetD oes "id" JVal.none) item = true
          · rw [List.filter_cons_of_pos (by simpa [dictFieldD] using hm)]
            simp only [idMatches, pyGet, exbind_ok, hm, if_true, ih, expure]
            rfl
          · have hfil : (JVal.dict oes :: rest).filter
                (fun o => pyEq (dictFieldD o "id" JVal.none) item) =
                rest.filter (fun o => pyEq (dictFieldD o "id" JVal.none) item) := by
              simp [List.filter_cons, dictFieldD, hm]
            rw [hfil]
            simp only [idMatches, pyGet, exbind_ok]
            rw [if_neg hm]
            exact ih
      | none => simp [isDict] at ho
      | bool b => simp [isDict] at ho
      | int n => simp [isDict] at ho
      | float q => simp [isDict] at ho
      | str s => simp [isDict] at ho
      | list xs => simp [isDict] at ho

/-- Helper: with dict options, the item loop of `labels`/`multi_select`
collects, in item order, the direct names of named objects and all
id-resolved names of the other items. -/
theorem labelsNames_of_dicts (os : List JVal) (hos : os.all isDict = true) :
    ∀ items : List JVal,
      labelsNames os items = Except.ok (items.flatMap (resolveSpecJ os))
  | [] => rfl
  | item :: rest => by
      have ih := labelsNames_of_dicts os hos rest
      cases item with
      | dict ies =>
          cases hn : ies.lookup "name" with
          | some nv =>
              simp only [labelsNames, hn, ih, exbind_ok, expure, List.flatMap_cons,
                resolveSpecJ]
              rfl
          | none =>
              simp only [labelsNames, hn, idMatches_of_dicts _ os hos, ih,
                exbind_ok, expure, List.flatMap_cons, resolveSpecJ]
      | none =>
          simp only [labelsNames, idMatches_of_dicts _ os hos, ih,
            exbind_ok, expure, List.flatMap_cons, resolveSpecJ]
      | bool b =>
          simp only [labelsNames, idMatches_of_dicts _ os hos, ih,
            exbind_ok, expure, List.flatMap_cons, resolveSpecJ]
      | int n =>
          simp only [labelsNames, idMatches_of_dicts _ os hos, ih,
            exbind_ok, expure, List.flatMap_cons, resolveSpecJ]
      | float q =>
          simp only [labelsNames, idMatches_of_dicts _ os hos, ih,
            exbind_ok, expure, List.flatMap_cons, resolveSpecJ]
      | str s =>
          simp only [labelsNames, idMatches_of_dicts _ os hos, ih,
            exbind_ok, expure, List.flatMap_cons, resolveSpecJ]
      | list xs =>
          simp only [labelsNames, idMatches_of_dicts _ os hos, ih,
            exbind_ok, expure, List.flatMap_cons, resolveSpecJ]

/-- Helper: a name drawn from well-shaped options is a string. -/
theorem optionName_isStr (os : List JVal) (hos : os.all optionShapeB = true)
    (p : JVal → Bool) (part : JVal)
    (hp : part ∈ (os.filter p).map (fun o => dictFieldD o "name" (JVal.str ""))) :
    isStr part = true := by
  rw [List.mem_map] at hp
  obtain ⟨o, hof, rfl⟩ := hp
  have hm : o ∈ os := (List.mem_filter.mp hof).1
  have hsh := List.all_eq_true.mp hos o hm
  cases o with
  | dict oes => simpa [optionShapeB, strOrAbsentB, dictFieldD] using hsh
  | none => simp [optionShapeB] at hsh
  | bool b => simp [optionShapeB] at hsh
  | int n => simp [optionShapeB] at hsh
  | float q => simp [optionShapeB] at hsh
  | str s => simp [optionShapeB] at hsh
  | list xs => simp [optionShapeB] at hsh

/-- Helper: well-shaped options are dicts. -/
theorem optionShape_isDict (os : List JVal) (hos : os.all optionShapeB = true) :
    os.all isDict = true := by
  rw [List.all_eq_true] at hos ⊢
  intro o ho
  have := hos o ho
  cases o <;> simp_all [optionShapeB, isDict]

/-- Helper: on well-shaped options and items every collected label name is
a string. -/
theorem resolveSpecJ_all_str (os : List JVal) (hos : os.all optionShapeB = true)
    (items : List JVal) (hitems : items.all itemShapeB = true) :
    (items.flatMap (resolveSpecJ os)).all isStr = true := by
  rw [List.all_eq_true]
  intro part hp
  rw [List.mem_flatMap] at hp
  obtain ⟨item, hitem, hpart⟩ := hp
  have hsh := List.all_eq_true.mp hitems item hitem
  cases item with
  | dict ies =>
      cases hn : ies.lookup "name" with
      | some nv =>
          simp only [resolveSpecJ, hn, List.mem_singleton] at hpart
          subst hpart
          simpa [itemShapeB, hn] using hsh
      | none =>
          simp only [resolveSpecJ, hn] at hpart
          exact optionName_isStr os hos _ part hpart
  | none =>
      simp only [resolveSpecJ] at hpart
      exact optionName_isStr os hos _ part hpart
  | bool b =>
      simp only [resolveSpecJ] at hpart
      exact optionName_isStr os hos _ part hpart
  | int n =>
      simp only [resolveSpecJ] at hpart
      exact optionName_isStr os hos _ part hpart
  | float q =>
      simp only [resolveSpecJ] at hpart
      exact optionName_isStr os hos _ part hpart
  | str s =>
      simp only [resolveSpecJ] at hpart
      exact optionName_isStr os hos _ part hpart
  | list xs =>
      simp only [resolveSpecJ] at hpart
      exact optionName_isStr os hos _ part hpart

/-- Helper: a filter with at most one hit is the singleton (or empty) list
of the first hit. -/
theorem filter_eq_find_toList {α : Type} (p : α → Bool) :
    ∀ l : List α, (l.filter p).length ≤ 1 → l.filter p = (l.find? p).toList
  | [], _ => rfl
  | x :: rest, h => by
      by_cases hx : p x = true
      · have hfil : (x :: rest).filter p = x :: rest.filter p := by
          simp [List.filter_cons, hx]
        rw [hfil] at h
        have h0 : (rest.filter p).length = 0 := by
          simp only [List.length_cons] at h
          omega
        rw [hfil, List.length_eq_zero.mp h0, List.find?_cons_of_pos _ hx]
        rfl
      · have hfil : (x :: rest).filter p = rest.filter p := by
          simp [List.filter_cons, hx]
        rw [hfil] at h ⊢
        rw [List.find?_cons_of_neg _ hx]
        exact filter_eq_find_toList p rest h

/-- Helper: under at-most-one-match options, the code-side collected names
coincide (as strings) with the claim-side unique resolution. -/
theorem resolveSpecJ_map_strOf (os : List JVal) :
    ∀ items : List JVal,
      (∀ it ∈ items,
        (os.filter (fun o => pyEq (dictFieldD o "id" JVal.none) it)).length ≤ 1) →
      (items.flatMap (resolveSpecJ os)).map strOf = items.flatMap (resolvedNames os)
  | [], _ => rfl
  | it :: rest, h => by
      have ih := resolveSpecJ_map_strOf os rest
        (fun x hx => h x (List.mem_cons_of_mem _ hx))
      have h1 := h it (List.mem_cons_self _ _)
      have hfind := filter_eq_find_toList
        (fun o => pyEq (dictFieldD o "id" JVal.none) it) os h1
      rw [List.flatMap_cons, List.flatMap_cons, List.map_append, ih]
      congr 1
      cases it with
      | dict ies =>
          cases hn : ies.lookup "name" with
          | some nv => simp [resolveSpecJ, resolvedNames, hn]
          | none =>
              simp only [resolveSpecJ, resolvedNames, hn, optionNameFor, hfind]
              cases os.find? (fun o =>
                pyEq (dictFieldD o "id" JVal.none) (JVal.dict ies)) <;> rfl
      | none =>
          simp only [resolveSpecJ, resolvedNames, optionNameFor, hfind]
          cases os.find? (fun o => pyEq (dictFieldD o "id" JVal.none) JVal.none) <;> rfl
      | bool b =>
          simp only [resolveSpecJ, resolvedNames, optionNameFor, hfind]
          cases os.find? (fun o =>
            pyEq (dictFieldD o "id" JVal.none) (JVal.bool b)) <;> rfl
      | int n =>
          simp only [resolveSpecJ, resolvedNames, optionNameFor, hfind]
          cases os.find? (fun o =>
            pyEq (dictFieldD o "id" JVal.none) (JVal.int n)) <;> rfl
      | float q =>
          simp only [resolveSpecJ, resolvedNames, optionNameFor, hfind]
          cases os.find? (fun o =>
            pyEq (dictFieldD o "id" JVal.none) (JVal.float q)) <;> rfl
      | str s =>
          simp only [resolveSpecJ, resolvedNames, optionNameFor, hfind]
          cases os.find? (fun o =>
            pyEq (dictFieldD o "id" JVal.none) (JVal.str s)) <;> rfl
      | list xs =>
          simp only [resolveSpecJ, resolvedNames, optionNameFor, hfind]
          cases os.find? (fun o =>
            pyEq (dictFieldD o "id" JVal.none) (JVal.list xs)) <;> rfl

/-- C6: a `labels`/`multi_select` field whose value is a sequence joins
with `", "`, in original item order, the resolved names: an object carrying
`name` contributes it directly, a bare identifier contributes the name of
the matching option, and an unresolvable identifier contributes nothing. -/
theorem c6_labels_multi_select (field v : JVal) (t : String)
    (hT : pyGet field "type" JVal.none = Except.ok (JVal.str t))
    (ht : t = "labels" ∨ t = "multi_select")
    (hV : pyGet field "value" JVal.none = Except.ok v)
    (items : List JVal) (hvl : v = JVal.list items)
    (tc optv : JVal) (os : List JVal)
    (htc : pyGet field "type_config" (JVal.dict []) = Except.ok tc)
    (hopt : pyGet tc "options" (JVal.list []) = Except.ok optv)
    (hiter : pyIter optv = Except.ok os)
    (hos : os.all optionShapeB = true)
    (hitems : items.all itemShapeB = true)
    (huniq : ∀ it ∈ items,
      (os.filter (fun o => pyEq (dictFieldD o "id" JVal.none) it)).length ≤ 1) :
    _get_field_value field =
      Except.ok (JVal.str (String.intercalate ", "
        (items.flatMap (resolvedNames os)))) := by
  cases field with
  | dict es =>
      have hT2 : dictGetD es "type" JVal.none = JVal.str t := by injection hT
      have hV2 : dictGetD es "value" JVal.none = v := by injection hV
      subst hvl
      rw [_get_field_value_labels es t hT2 ht, hV2]
      simp only [htc, hopt, hiter, exbind_ok,
        labelsNames_of_dicts os (optionShape_isDict os hos) items,
        pyJoin_of_all_str ", " _ (resolveSpecJ_all_str os hos items hitems),
        expure, resolveSpecJ_map_strOf os items huniq]
  | none => cases hT
  | bool b => cases hT
  | int n => cases hT
  | float q => cases hT
  | str s => cases hT
  | list xs => cases hT

/-- Witness for C6: two resolvable identifiers and one named object yield
all three names in original order. -/
theorem c6_witness :
    _get_field_value c6Field = Except.ok (JVal.str "Red, Custom, Blue") := by
  have h := c6_labels_multi_select c6Field (JVal.list c6Items) "multi_select" rfl
    (Or.inr rfl) rfl c6Items rfl (JVal.dict [("options", JVal.list c6Options)])
    (JVal.list c6Options) c6Options rfl rfl rfl rfl rfl (by decide)
  exact h.trans (by rfl)

/-- Helper: key membership across an appended singleton. -/
theorem memJ_append_singleton (acc : List JVal) (k j : JVal) :
    memJ (acc ++ [k]) j = (memJ acc j || pyEq k j) := by
  simp [memJ, List.any_append]

/-- Helper: when every field name extracts, the inner discovery loop is the
left fold of key insertion over the extracted names. -/
theorem insertTaskFields_of_names :
    ∀ (fields : List JVal) (acc ns : List JVal),
      fields.mapM (fun f => pyGet f "name" JVal.none) = Except.ok ns →
      insertTaskFields acc fields = Except.ok (ns.foldl insertKey acc)
  | [], acc, ns, h => by
      simp only [List.mapM_nil, expure] at h
      injection h with h
      subst h
      rfl
  | f :: rest, acc, ns, h => by
      rw [List.mapM_cons] at h
      cases hf : pyGet f "name" JVal.none with
      | error e => rw [hf, exbind_error] at h; exact Except.noConfusion h
      | ok n =>
          rw [hf, exbind_ok] at h
          cases hrest : rest.mapM (fun f => pyGet f "name" JVal.none) with
          | error e => rw [hrest, exbind_error] at h; exact Except.noConfusion h
          | ok tail =>
              rw [hrest, exbind_ok, expure] at h
              injection h with h
              subst h
              simp only [insertTaskFields, hf, exbind_ok]
              exact insertTaskFields_of_names rest (insertKey acc n) tail hrest

/-- Helper: when every task's names extract, the discovery loop is the left
fold of key insertion over the concatenated name lists. -/
theorem discoverGo_of_names :
    ∀ (tasks : List JVal) (acc : List JVal) (nss : List (List JVal)),
      tasks.mapM taskFieldNames = Except.ok nss →
      discoverGo acc tasks = Except.ok (nss.flatten.foldl insertKey acc)
  | [], acc, nss, h => by
      simp only [List.mapM_nil, expure] at h
      injection h with h
      subst h
      rfl
  | task :: rest, acc, nss, h => by
      rw [List.mapM_cons] at h
      cases htf : taskFieldNames task with
      | error e => rw [htf, exbind_error] at h; exact Except.noConfusion h
      | ok ns =>
          rw [htf, exbind_ok] at h
          cases hrest : rest.mapM taskFieldNames with
          | error e => rw [hrest, exbind_error] at h; exact Except.noConfusion h
          | ok tailns =>
              rw [hrest, exbind_ok, expure] at h
              injection h with h
              subst h
              unfold taskFieldNames at htf
              cases hcf : pyGet task "custom_fields" (JVal.list []) with
              | error e => rw [hcf, exbind_error] at htf; exact Except.noConfusion htf
              | ok cfv =>
                  rw [hcf, exbind_ok] at htf
                  cases hi : pyIter cfv with
                  | error e => rw [hi, exbind_error] at htf; exact Except.noConfusion htf
                  | ok fields =>
                      rw [hi, exbind_ok] at htf
                      simp only [discoverGo, hcf, hi, exbind_ok]
                      rw [insertTaskFields_of_names fields acc ns htf, exbind_ok,
                        discoverGo_of_names rest _ tailns hrest]
                      congr 1
                      rw [List.flatten_cons, List.foldl_append]

/-- Helper: the left fold of dict-key insertion is first-seen-order
de-duplication of the keys not already present. -/
theorem foldl_insertKey_eq (l : List JVal) :
    ∀ acc : List JVal,
      l.foldl insertKey acc = acc ++ dedupFirstSeen (l.filter (fun k => !memJ acc k)) := by
  induction l with
  | nil => intro acc; simp [dedupFirstSeen]
  | cons k rest ih =>
      intro acc
      by_cases hk : memJ acc k = true
      · have hfc : List.filter (fun j => !memJ acc j) (k :: rest) =
            List.filter (fun j => !memJ acc j) rest := by
          simp [List.filter_cons, hk]
        have hins : insertKey acc k = acc := by simp [insertKey, hk]
        rw [List.foldl_cons, hfc, hins]
        exact ih acc
      · have hkf : memJ acc k = false := by
          cases h2 : memJ acc k
          · rfl
          · exact absurd h2 hk
        have hins : insertKey acc k = acc ++ [k] := by simp [insertKey, hkf]
        have hfc : List.filter (fun j => !memJ acc j) (k :: rest) =
            k :: List.filter (fun j => !memJ acc j) rest := by
          simp [List.filter_cons, hkf]
        rw [List.foldl_cons, hins, ih (acc ++ [k]), hfc]
        simp only [dedupFirstSeen]
        rw [List.filter_filter]
        have hpred : ∀ a : JVal,
            (!memJ (acc ++ [k]) a) = (!pyEq k a && !memJ acc a) := by
          intro a
          rw [memJ_append_singleton]
          cases memJ acc a <;> cases pyEq k a <;> rfl
        simp only [hpred]
        rw [List.append_assoc]
        rfl

/-- C3: column discovery yields exactly the de-duplicated union of the
custom-field names of all tasks in first-seen order, and on the two tasks
with field names `{A, B}` and `{B, C}` it yields the column order
`[A, B, C]`. -/
theorem c3_discover_columns_dedup :
    (∀ (tasks : List JVal) (nss : List (List JVal)),
        tasks.mapM taskFieldNames = Except.ok nss →
        discover_columns tasks = Except.ok (dedupFirstSeen nss.flatten))
    ∧ discover_columns [c3TaskAB, c3TaskBC] =
        Except.ok [JVal.str "A", JVal.str "B", JVal.str "C"] := by
  constructor
  · intro tasks nss h
    rw [discover_columns, discoverGo_of_names tasks [] nss h]
    have hfil : List.filter (fun k => !memJ [] k) nss.flatten = nss.flatten :=
      List.filter_eq_self.mpr (fun a _ => rfl)
    rw [foldl_insertKey_eq, hfil, List.nil_append]
  · rfl

/-- Witness for C3: the general refinement applied to the two concrete
tasks. -/
theorem c3_witness :
    discover_columns [c3TaskAB, c3TaskBC] =
      Except.ok (dedupFirstSeen
        [[JVal.str "A", JVal.str "B"], [JVal.str "B", JVal.str "C"]].flatten) :=
  c3_discover_columns_dedup.1 [c3TaskAB, c3TaskBC]
    [[JVal.str "A", JVal.str "B"], [JVal.str "B", JVal.str "C"]] rfl

/-- Helper: first-seen de-duplication of an already-duplicate-free list is
the identity. -/
theorem dedupFirstSeen_of_nodup :
    ∀ l : List JVal, nodupKeys l = true → dedupFirstSeen l = l
  | [], _ => by simp [dedupFirstSeen]
  | x :: xs, h => by
      simp only [nodupKeys, Bool.and_eq_true] at h
      obtain ⟨hx, hxs⟩ := h
      have hfil : xs.filter (fun y => !pyEq x y) = xs :=
        List.filter_eq_self.mpr (List.all_eq_true.mp hx)
      simp only [dedupFirstSeen, hfil, dedupFirstSeen_of_nodup xs hxs]

/-- Helper: inserting duplicate-free keys into an empty dict keeps them
unchanged and in order. -/
theorem foldl_insertKey_of_nodup (cols : List JVal) (h : nodupKeys cols = true) :
    cols.foldl insertKey [] = cols := by
  have hfil : cols.filter (fun k => !memJ [] k) = cols :=
    List.filter_eq_self.mpr (fun a _ => rfl)
  rw [foldl_insertKey_eq, hfil, List.nil_append, dedupFirstSeen_of_nodup cols h]

/-- Helper: membership of a field name among the slot keys is membership in
the column list. -/
theorem memKeys_map (cols : List JVal) (g : JVal → JVal) (k : JVal) :
    memKeys (cols.map (fun c => (c, g c))) k = memJ cols k := by
  induction cols with
  | nil => rfl
  | cons c rest ih =>
      simp only [memKeys, memJ, List.map_cons, List.any_cons] at ih ⊢
      rw [ih]

/-- Helper: overwriting one key's slot keeps the slot map in column form. -/
theorem updateVals_map (cols : List JVal) (g : JVal → JVal) (k v : JVal) :
    updateVals (cols.map (fun c => (c, g c))) k v =
      cols.map (fun c => (c, if pyEq c k then v else g c)) := by
  simp only [updateVals, List.map_map]
  apply List.map_congr_left
  intro c _
  by_cases h : pyEq c k = true <;> simp [Function.comp, h]

/-- Helper: a successful normalization seen through `toOption`. -/
theorem toOption_isSome_ok {e : Except PyErr JVal}
    (h : e.toOption.isSome = true) : ∃ a, e = Except.ok a := by
  cases e with
  | ok a => exact ⟨a, rfl⟩
  | error err => simp [Except.toOption] at h

/-- Helper: `getLast?` of a cons, by cases on the tail. -/
theorem getLast?_cons_cases {α : Type} (a : α) (l : List α) :
    (a :: l).getLast? =
      (match l.getLast? with
       | some b => some b
       | Option.none => some a) := by
  induction l with
  | nil => rfl
  | cons x xs _ =>
      rw [List.getLast?_cons_cons]
      cases hx : (x :: xs).getLast? with
      | some b => rfl
      | none =>
          exact absurd (List.getLast?_eq_none_iff.mp hx) (List.cons_ne_nil x xs)

/-- Helper: the field loop of `_process_task`, started on slots holding
`g c` per column `c`, ends with each slot holding the normalized value of
the last field of that name (and `g c` where the task has none); fields
with names outside the column set are ignored. -/
theorem processFields_spec (cols : List JVal) :
    ∀ (fields : List JVal) (g : JVal → JVal),
      fields.all isDict = true →
      (fields.filter (fun f => memJ cols (fieldNameD f))).all
        (fun f => (_get_field_value f).toOption.isSome) = true →
      processFields (cols.map (fun c => (c, g c))) fields =
        Except.ok (cols.map (fun c =>
          (c, match lastFieldFor fields c with
              | some f => (_get_field_value f).toOption.getD (JVal.str "")
              | Option.none => g c)))
  | [], g, _, _ => by
      simp [processFields, lastFieldFor]
  | f :: rest, g, hd, hok => by
      rw [List.all_cons, Bool.and_eq_true] at hd
      obtain ⟨hdf, hdrest⟩ := hd
      cases f with
      | dict fes =>
          by_cases hmem : memJ cols (dictGetD fes "name" JVal.none) = true
          · have hpred : memJ cols (fieldNameD (JVal.dict fes)) = true := by
              simpa [fieldNameD] using hmem
            have hfcons : List.filter (fun f => memJ cols (fieldNameD f))
                (JVal.dict fes :: rest) =
                JVal.dict fes :: List.filter (fun f => memJ cols (fieldNameD f)) rest := by
              simp [List.filter_cons, hpred]
            rw [hfcons, List.all_cons, Bool.and_eq_true] at hok
            obtain ⟨hokf, hokrest⟩ := hok
            obtain ⟨v, hv⟩ := toOption_isSome_ok hokf
            simp only [processFields, pyGet, exbind_ok, memKeys_map, hmem, if_true,
              hv, updateVals_map]
            rw [processFields_spec cols rest
              (fun c => if pyEq c (dictGetD fes "name" JVal.none) then v else g c)
              hdrest hokrest]
            congr 1
            apply List.map_congr_left
            intro c _
            by_cases hck : pyEq c (dictGetD fes "name" JVal.none) = true
            · have hflt : List.filter (fun f => pyEq c (fieldNameD f))
                  (JVal.dict fes :: rest) =
                  JVal.dict fes :: List.filter (fun f => pyEq c (fieldNameD f)) rest := by
                simp [List.filter_cons, fieldNameD, hck]
              simp only [lastFieldFor, hflt, getLast?_cons_cases]
              cases hl : (List.filter (fun f => pyEq c (fieldNameD f)) rest).getLast? with
              | some f2 => rfl
              | none =>
                  simp only [hck, if_true, hv, Except.toOption, Option.getD_some]
            · have hflt : List.filter (fun f => pyEq c (fieldNameD f))
                  (JVal.dict fes :: rest) =
                  List.filter (fun f => pyEq c (fieldNameD f)) rest := by
                simp [List.filter_cons, fieldNameD, hck]
              simp only [lastFieldFor, hflt]
              cases (List.filter (fun f => pyEq c (fieldNameD f)) rest).getLast? with
              | some f2 => rfl
              | none => simp [hck]
          · have hmemf : memJ cols (dictGetD fes "name" JVal.none) = false := by
              cases h2 : memJ cols (dictGetD fes "name" JVal.none)
              · rfl
              · exact absurd h2 hmem
            have hpred : memJ cols (fieldNameD (JVal.dict fes)) = false := by
              simpa [fieldNameD] using hmemf
            have hfok : List.filter (fun f => memJ cols (fieldNameD f))
                (JVal.dict fes :: rest) =
                List.filter (fun f => memJ cols (fieldNameD f)) rest := by
              simp [List.filter_cons, hpred]
            rw [hfok] at hok
            simp only [processFields, pyGet, exbind_ok, memKeys_map, hmemf,
              Bool.false_eq_true, if_false]
            rw [processFields_spec cols rest g hdrest hok]
            congr 1
            apply List.map_congr_left
            intro c hc
            have hck : pyEq c (fieldNameD (JVal.dict fes)) = false := by
              cases h2 : pyEq c (fieldNameD (JVal.dict fes))
              · rfl
              · exfalso
                apply hmem
                rw [memJ, List.any_eq_true]
                exact ⟨c, hc, by simpa [fieldNameD] using h2⟩
            have hflt : List.filter (fun f => pyEq c (fieldNameD f))
                (JVal.dict fes :: rest) =
                List.filter (fun f => pyEq c (fieldNameD f)) rest := by
              simp [List.filter_cons, hck]
            simp only [lastFieldFor, hflt]
      | none => simp [isDict] at hdf
      | bool b => simp [isDict] at hdf
      | int n => simp [isDict] at hdf
      | float q => simp [isDict] at hdf
      | str s => simp [isDict] at hdf
      | list xs => simp [isDict] at hdf

/-- C4: the row built by `_process_task` is the task's name followed by
exactly one value per column in column order; each slot holds the
normalized value of the task's last field of that name (last write wins)
and the empty string when the task has no such field; task fields whose
name is not in the column set are ignored. -/
theorem c4_process_task_row (task : JVal) (cols : List JVal) (nm cfv : JVal)
    (fields : List JVal)
    (hnm : pyGet task "name" (JVal.str "") = Except.ok nm)
    (hcf : pyGet task "custom_fields" (JVal.list []) = Except.ok cfv)
    (hiter : pyIter cfv = Except.ok fields)
    (hdict : fields.all isDict = true)
    (hok : (fields.filter (fun f => memJ cols (fieldNameD f))).all
        (fun f => (_get_field_value f).toOption.isSome) = true)
    (hnodup : nodupKeys cols = true) :
    _process_task task cols = Except.ok (nm :: cols.map (slotSpec fields)) := by
  unfold _process_task
  rw [hnm, exbind_ok, hcf, exbind_ok, hiter, exbind_ok,
    foldl_insertKey_of_nodup cols hnodup,
    processFields_spec cols fields (fun _ => JVal.str "") hdict hok, exbind_ok, expure]
  congr 2
  rw [List.map_map]
  apply List.map_congr_left
  intro c _
  simp only [slotSpec, Function.comp]

/-- Witness for C4: last write wins on the duplicate `A`, the missing
column `B` is empty, and the out-of-column field `X` is ignored. -/
theorem c4_witness :
    _process_task c4Task c4Cols =
      Except.ok [JVal.str "T", JVal.str "second", JVal.str ""] := by
  have h := c4_process_task_row c4Task c4Cols (JVal.str "T")
    (JVal.list c4Fields) c4Fields rfl rfl rfl rfl rfl rfl
  exact h.trans (by rfl)

/-- Helper: a value recognised by `isStr` is a string constructor. -/
theorem isStr_exists (v : JVal) (h : isStr v = true) : ∃ s, v = JVal.str s := by
  cases v with
  | str s => exact ⟨s, rfl⟩
  | none => simp [isStr] at h
  | bool b => simp [isStr] at h
  | int n => simp [isStr] at h
  | float q => simp [isStr] at h
  | list xs => simp [isStr] at h
  | dict es => simp [isStr] at h

/-- Helper: on well-shaped options the dropdown loop always produces a
string: the matched option's name or the raw identifier. -/
theorem dropdownLookup_ok_str (os : List JVal) (hos : os.all optionShapeB = true)
    (s0 : String) :
    ∃ s : String, dropdownLookup (JVal.str s0) os = Except.ok (JVal.str s) := by
  rw [dropdownLookup_of_dicts (JVal.str s0) os (optionShape_isDict os hos)]
  cases hf : os.find? (fun o => pyEq (dictFieldD o "id" JVal.none) (JVal.str s0)) with
  | none => exact ⟨s0, rfl⟩
  | some o =>
      have hmem : o ∈ os := List.mem_of_find?_eq_some hf
      have hsh := List.all_eq_true.mp hos o hmem
      cases o with
      | dict oes =>
          obtain ⟨s, hs⟩ := isStr_exists (dictGetD oes "name" (JVal.str ""))
            (by simpa [optionShapeB, strOrAbsentB] using hsh)
          exact ⟨s, by simp [dictFieldD, hs]⟩
      | none => simp [optionShapeB] at hsh
      | bool b => simp [optionShapeB] at hsh
      | int n => simp [optionShapeB] at hsh
      | float q => simp [optionShapeB] at hsh
      | str s2 => simp [optionShapeB] at hsh
      | list xs => simp [optionShapeB] at hsh

/-- Helper: the label-collection-and-join tail of the `labels` branch is
total and string-valued on well-shaped options and items. -/
theorem labelsBranch_ok (os items : List JVal) (hos : os.all optionShapeB = true)
    (hitems : items.all itemShapeB = true) :
    ∃ s : String,
      (do
        let names ← labelsNames os items
        let s2 ← pyJoin ", " names
        pure (JVal.str s2) : Except PyErr JVal) = Except.ok (JVal.str s) := by
  rw [labelsNames_of_dicts os (optionShape_isDict os hos) items, exbind_ok,
    pyJoin_of_all_str ", " _ (resolveSpecJ_all_str os hos items hitems), exbind_ok]
  exact ⟨_, rfl⟩

/-- Helper: every collected username is a string on well-shaped users. -/
theorem usersParts_all_str (users : List JVal) (h : users.all usersEntryShape = true) :
    (usersParts users).all isStr = true := by
  rw [List.all_eq_true]
  intro part hp
  simp only [usersParts] at hp
  rw [List.mem_filterMap] at hp
  obtain ⟨u, hu, hpart⟩ := hp
  have hsh := List.all_eq_true.mp h u hu
  cases u with
  | dict ues =>
      injection hpart with hpart
      subst hpart
      simpa [usersEntryShape, strOrAbsentB] using hsh
  | none => exact Option.noConfusion hpart
  | bool b => exact Option.noConfusion hpart
  | int n => exact Option.noConfusion hpart
  | float q => exact Option.noConfusion hpart
  | str s => exact Option.noConfusion hpart
  | list xs => exact Option.noConfusion hpart

/-- C1 counterexample: the normalizer can raise on malformed payloads — a
`date` field whose non-null value is a string raises `TypeError` from the
division by 1000, and a `relationship` field whose sequence contains a
truthy non-object raises `AttributeError` from `.get` — refuting the claim
that it never raises. -/
theorem c1_normalizer_can_raise :
    _get_field_value (JVal.dict [("name", JVal.str "D"), ("type", JVal.str "date"),
      ("value", JVal.str "tomorrow")]) = Except.error PyErr.typeError
    ∧ _get_field_value (JVal.dict [("name", JVal.str "R"),
      ("type", JVal.str "relationship"),
      ("value", JVal.list [JVal.str "task-1"])]) = Except.error PyErr.attributeError :=
  ⟨rfl, rfl⟩



theorem pyGet_dict (es : List (String × JVal)) (k : String) (d : JVal) :
    pyGet (JVal.dict es) k d = Except.ok (dictGetD es k d) := rfl

/-- Helper: the `type_config`/`options` access path of the dropdown and
labels branches, continued by any options consumer that is total on
well-shaped options. -/
theorem optionsPath_cases (es : List (String × JVal)) (h : optionsShapeB es = true)
    (k : List JVal → Except PyErr JVal)
    (hk : ∀ os : List JVal, os.all optionShapeB = true →
      ∃ s, k os = Except.ok (JVal.str s)) :
    ∃ s, (do
        let optv ← pyGet (dictGetD es "type_config" (JVal.dict [])) "options"
          (JVal.list [])
        let options ← pyIter optv
        k options) = Except.ok (JVal.str s) := by
  unfold optionsShapeB at h
  cases hcfg : es.lookup "type_config" with
  | none =>
      simp only [dictGetD, hcfg, Option.getD_none, pyGet, List.lookup_nil,
        exbind_ok, pyIter]
      exact hk [] rfl
  | some tcv =>
      rw [hcfg] at h
      cases tcv with
      | dict tc =>
          have h2 : (match tc.lookup "options" with
              | Option.none => true
              | some (JVal.list os) => os.all optionShapeB
              | some _ => false) = true := h
          cases hop : tc.lookup "options" with
          | none =>
              simp only [dictGetD, hcfg, Option.getD_some, pyGet, hop,
                Option.getD_none, exbind_ok, pyIter]
              exact hk [] rfl
          | some ov =>
              rw [hop] at h2
              cases ov with
              | list os =>
                  simp only [dictGetD, hcfg, Option.getD_some, pyGet, hop,
                    exbind_ok, pyIter]
                  exact hk os h2
              | none => exact Bool.noConfusion h2
              | bool b => exact Bool.noConfusion h2
              | int n => exact Bool.noConfusion h2
              | float q => exact Bool.noConfusion h2
              | str s2 => exact Bool.noConfusion h2
              | dict ds2 => exact Bool.noConfusion h2
      | none => exact Bool.noConfusion h
      | bool b => exact Bool.noConfusion h
      | int n => exact Bool.noConfusion h
      | float q => exact Bool.noConfusion h
      | str s2 => exact Bool.noConfusion h
      | list xs2 => exact Bool.noConfusion h

/-- Helper: the whole dropdown branch on a string identifier is total and
string-valued under a well-shaped options path. -/
theorem dropdownBranch_ok (es : List (String × JVal)) (s0 : String)
    (h : optionsShapeB es = true) :
    ∃ s, (do
        let optv ← pyGet (dictGetD es "type_config" (JVal.dict [])) "options"
          (JVal.list [])
        let options ← pyIter optv
        dropdownLookup (JVal.str s0) options) = Except.ok (JVal.str s) :=
  optionsPath_cases es h (dropdownLookup (JVal.str s0))
    (fun os hos => dropdownLookup_ok_str os hos s0)

/-- Helper: the whole labels branch on a list of items is total and
string-valued under a well-shaped options path and well-shaped items. -/
theorem labelsBranch_full_ok (es : List (String × JVal)) (items : List JVal)
    (h1 : optionsShapeB es = true) (h2 : items.all itemShapeB = true) :
    ∃ s, (do
        let optv ← pyGet (dictGetD es "type_config" (JVal.dict [])) "options"
          (JVal.list [])
        let options ← pyIter optv
        let names ← labelsNames options items
        let s2 ← pyJoin ", " names
        pure (JVal.str s2)) = Except.ok (JVal.str s) :=
  optionsPath_cases es h1
    (fun options => do
      let names ← labelsNames options items
      let s2 ← pyJoin ", " names
      pure (JVal.str s2))
    (fun os hos => labelsBranch_ok os items hos h2)

set_option maxHeartbeats 1600000 in
/-- C1 amended: the normalizer terminates normally with a string on every
field record whose payload matches the declared type's expected shape —
including all null values and unknown types — but it can raise on
mismatched payloads (e.g. `date`/`time` with a non-numeric non-null value,
or a `relationship` sequence with a truthy non-object entry). -/
theorem c1_normalizer_total_on_wellshaped (field : JVal)
    (h : wellShapedField field = true) :
    ∃ s : String, _get_field_value field = Except.ok (JVal.str s) := by
  cases field with
  | dict es =>
      simp only [wellShapedField] at h
      revert h
      unfold _get_field_value
      simp only [pyGet_dict, exbind_ok]
      generalize dictGetD es "type" JVal.none = tv
      generalize dictGetD es "value" JVal.none = vv
      intro h
      by_cases hc1 : isNone vv = true
      · exact ⟨"", by rw [if_pos hc1]; exact expure _⟩
      · rw [if_neg hc1] at h ⊢
        by_cases hc2 : isType tv ["text", "short_text", "email", "phone", "url"] = true
        · exact ⟨pyStr vv, by rw [if_pos hc2]; exact expure _⟩
        · rw [if_neg hc2] at h ⊢
          by_cases hc3 : isType tv ["number", "rating", "auto_increment"] = true
          · exact ⟨pyStr vv, by rw [if_pos hc3]; exact expure _⟩
          · rw [if_neg hc3] at h ⊢
            by_cases hc4 : pyEq tv (JVal.str "checkbox") = true
            · exact ⟨_, by rw [if_pos hc4]; exact expure _⟩
            · rw [if_neg hc4] at h ⊢
              by_cases hc5 : pyEq tv (JVal.str "dropdown") = true
              · rw [if_pos hc5] at h ⊢
                cases vv with
                | str s0 => exact dropdownBranch_ok es s0 h
                | dict ds =>
                    replace h : strOrAbsentB ds "name" = true := h
                    obtain ⟨s, hs⟩ := isStr_exists _ h
                    exact ⟨s, by simp only [hs, expure]⟩
                | none => exact ⟨_, rfl⟩
                | bool b => exact ⟨_, rfl⟩
                | int n => exact ⟨_, rfl⟩
                | float q => exact ⟨_, rfl⟩
                | list xs => exact ⟨_, rfl⟩
              · rw [if_neg hc5] at h ⊢
                by_cases hc6 : (pyEq tv (JVal.str "labels")
                    || pyEq tv (JVal.str "multi_select")) = true
                · rw [if_pos hc6] at h ⊢
                  cases vv with
                  | list items =>
                      replace h : (optionsShapeB es && items.all itemShapeB) = true := h
                      rw [Bool.and_eq_true] at h
                      exact labelsBranch_full_ok es items h.1 h.2
                  | none => exact ⟨_, rfl⟩
                  | bool b => exact ⟨_, rfl⟩
                  | int n => exact ⟨_, rfl⟩
                  | float q => exact ⟨_, rfl⟩
                  | str s0 => exact ⟨_, rfl⟩
                  | dict ds => exact ⟨_, rfl⟩
                · rw [if_neg hc6] at h ⊢
                  by_cases hc7 : (pyEq tv (JVal.str "date")
                      || pyEq tv (JVal.str "time")) = true
                  · rw [if_pos hc7] at h ⊢
                    cases vv with
                    | none => exact absurd rfl hc1
                    | bool b => exact ⟨_, rfl⟩
                    | int n => exact ⟨_, rfl⟩
                    | float q => exact ⟨_, rfl⟩
                    | str s0 => exact Bool.noConfusion h
                    | list xs => exact Bool.noConfusion h
                    | dict ds => exact Bool.noConfusion h
                  · rw [if_neg hc7] at h ⊢
                    by_cases hc8 : pyEq tv (JVal.str "users") = true
                    · rw [if_pos hc8] at h ⊢
                      cases vv with
                      | list us =>
                          replace h : us.all usersEntryShape = true := h
                          simp only [pyJoin_of_all_str ", " _ (usersParts_all_str us h),
                            exbind_ok, expure]
                          exact ⟨_, rfl⟩
                      | none => exact ⟨_, rfl⟩
                      | bool b => exact ⟨_, rfl⟩
                      | int n => exact ⟨_, rfl⟩
                      | float q => exact ⟨_, rfl⟩
                      | str s0 => exact ⟨_, rfl⟩
                      | dict ds => exact ⟨_, rfl⟩
                    · rw [if_neg hc8] at h ⊢
                      by_cases hc9 : pyEq tv (JVal.str "location") = true
                      · rw [if_pos hc9] at h ⊢
                        cases vv with
                        | dict ds =>
                            replace h : strOrAbsentB ds "name" = true := h
                            obtain ⟨s, hs⟩ := isStr_exists _ h
                            exact ⟨s, by simp only [hs, expure]⟩
                        | none => exact ⟨_, rfl⟩
                        | bool b => exact ⟨_, rfl⟩
                        | int n => exact ⟨_, rfl⟩
                        | float q => exact ⟨_, rfl⟩
                        | str s0 => exact ⟨_, rfl⟩
                        | list xs => exact ⟨_, rfl⟩
                      · rw [if_neg hc9] at h ⊢
                        by_cases hc10 : pyEq tv (JVal.str "relationship") = true
                        · rw [if_pos hc10] at h ⊢
                          cases vv with
                          | list xs =>
                              replace h : xs.all relEntryShape = true := h
                              obtain ⟨hr1, hr2⟩ := relParts_of_shaped xs h
                              simp only [hr1, exbind_ok,
                                pyJoin_of_all_str ", " _ hr2, expure]
                              exact ⟨_, rfl⟩
                          | none => exact ⟨_, rfl⟩
                          | bool b => exact ⟨_, rfl⟩
                          | int n => exact ⟨_, rfl⟩
                          | float q => exact ⟨_, rfl⟩
                          | str s0 => exact ⟨_, rfl⟩
                          | dict ds => exact ⟨_, rfl⟩
                        · rw [if_neg hc10] at h ⊢
                          by_cases hc11 : pyEq tv (JVal.str "formula") = true
                          · rw [if_pos hc11] at h ⊢
                            cases vv with
                            | dict ds =>
                                replace h : strOrAbsentB ds "text" = true := h
                                obtain ⟨s, hs⟩ := isStr_exists _ h
                                exact ⟨s, by simp only [hs, expure]⟩
                            | none => exact ⟨_, rfl⟩
                            | bool b => exact ⟨_, rfl⟩
                            | int n => exact ⟨_, rfl⟩
                            | float q => exact ⟨_, rfl⟩
                            | str s0 => exact ⟨_, rfl⟩
                            | list xs => exact ⟨_, rfl⟩
                          · rw [if_neg hc11] at h ⊢
                            by_cases hc12 : isType tv ["created_by", "updated_by"] = true
                            · rw [if_pos hc12] at h ⊢
                              cases vv with
                              | dict ds =>
                                  replace h : strOrAbsentB ds "username" = true := h
                                  obtain ⟨s, hs⟩ := isStr_exists _ h
                                  exact ⟨s, by simp only [hs, expure]⟩
                              | none => exact ⟨_, rfl⟩
                              | bool b => exact ⟨_, rfl⟩
                              | int n => exact ⟨_, rfl⟩
                              | float q => exact ⟨_, rfl⟩
                              | str s0 => exact ⟨_, rfl⟩
                              | list xs => exact ⟨_, rfl⟩
                            · rw [if_neg hc12]
                              exact ⟨pyStr vv, rfl⟩
  | none => simp [wellShapedField] at h
  | bool b => simp [wellShapedField] at h
  | int n => simp [wellShapedField] at h
  | float q => simp [wellShapedField] at h
  | str s => simp [wellShapedField] at h
  | list xs => simp [wellShapedField] at h

/-- Witness for C1: a well-shaped labels field with one resolvable and one
unresolvable identifier normalizes to a string. -/
theorem c1_witness :
    wellShapedField c1Field = true ∧
      ∃ s : String, _get_field_value c1Field = Except.ok (JVal.str s) :=
  ⟨rfl, c1_normalizer_total_on_wellshaped c1Field rfl⟩
